import Mathlib

/-!
A shallow embedding of `tesserae/tokenizers/base.py` (class `BaseTokenizer`)
and proofs about it.

Conventions of the embedding:
* Python strings are Lean `String`s; the split/substitution helpers work on
  `List Char` and are wrapped for `String`.
* Python's regex character class `\w` (with `re.UNICODE`) is modelled on the
  ASCII range (`[a-zA-Z0-9_]`), and `\s` as the ASCII whitespace set; the
  class-level `word_characters = 'a-zA-Z'` and the eight listed diacritical
  code points are taken verbatim from the source.  No property proved below
  depends on the classification of characters outside these ranges.
* `unicodedata.normalize('NFKD', -)` and `str.lower()` are opaque library
  calls; they are carried as explicit function parameters (`nfkd`, `lower`)
  of the tokenizer environment.
* Python object identity is modelled by giving each freshly constructed
  `FeatureSet`/`Frequency` a serial number (`oid`) drawn from an allocation
  counter threaded through the computation.
* Fallible operations (attribute access on `None`, list indexing) return
  `Except TokError`.
-/

set_option maxRecDepth 4000

namespace Tesserae

/-- Python `str.isspace`-style test restricted to the ASCII range; models the
regex class `[\s]` for the inputs used here. -/
def pyIsSpace (c : Char) : Bool :=
  c == ' ' || c == '\t' || c == '\n' || c == '\r' || c == '\u000b' || c == '\u000c'

/-- The eight diacritical code points listed (with one duplicate) in
`BaseTokenizer.__init__` as `self.diacriticals`. -/
def isDiacritical (c : Char) : Bool :=
  c == '̓' || c == '̔' || c == '́' || c == '͂' ||
  c == '̀' || c == '́' || c == '̈' || c == 'ͅ'

/-- The regex class `\w`, modelled on the ASCII range: letters, digits and
underscore. -/
def pyIsWordChar (c : Char) : Bool :=
  c.isAlphanum || c == '_'

/-- A character kept inside a normalized token by `split_pattern`'s final
alternative `[^\w<diacriticals>]`: a word character or a listed diacritical. -/
def isSplitWordChar (c : Char) : Bool :=
  pyIsWordChar c || isDiacritical c

/-- `re.search('[' + self.word_characters + ']', d)` with
`word_characters = 'a-zA-Z'`: does the display token contain a basic
letter? -/
def wordBearing (d : String) : Bool :=
  d.toList.any Char.isAlpha

/-- Greedy end position for the regex `[<].+[>][\s]` (and for the `re.sub`
pattern `<.+>\s`), searching in the characters after an opening `'<'`.
Returns the largest index `j` such that `cs[j] = '>'`, `cs[j+1]` is
whitespace, `j ≥ 1` (the `.+` needs at least one character) and no newline
occurs before `j` (`.` does not match `'\n'`). -/
def findAngleEnd : List Char → Nat → Option Nat → Option Nat
  | [], _, best => best
  | c :: t, pos, best =>
    if c = '\n' then best
    else
      findAngleEnd t (pos + 1)
        (if c = '>' && pos ≥ 1 &&
            (match t with | c2 :: _ => pyIsSpace c2 | [] => false)
         then some pos else best)

/-- `re.sub(r'<.+>\s', '', raw)`: delete every (greedy, leftmost) match of a
bracketed span followed by a whitespace character.  The recursion consumes at
least one character per step; `fuel` (instantiated with the input length by
`subAngle`) makes it structural so that it reduces in the kernel. -/
def subAngleF : Nat → List Char → List Char
  | 0, _ => []
  | _ + 1, [] => []
  | fuel + 1, c :: t =>
    if c = '<' then
      match findAngleEnd t 0 none with
      | some j => subAngleF fuel (t.drop (j + 2))
      | none => c :: subAngleF fuel t
    else c :: subAngleF fuel t

/-- `re.sub(r'<.+>\s', '', raw)`. -/
def subAngle (cs : List Char) : List Char :=
  subAngleF cs.length cs

/-- `re.sub(r'[\n]', r' / ', raw)`: replace every newline with `" / "`. -/
def subNewline (cs : List Char) : List Char :=
  cs.foldr (fun c acc => if c = '\n' then ' ' :: '/' :: ' ' :: acc else c :: acc) []

/-- `re.split('( / )|([^a-zA-Z])', raw)` including the captured delimiters
(`re.split` emits captured groups), before the `if t` filtering.  `cur` holds
the word characters of the piece currently being scanned. -/
def splitDisplayAux : List Char → List Char → List String
  | [], cur => [String.mk cur]
  | ' ' :: '/' :: ' ' :: t, cur => String.mk cur :: " / " :: splitDisplayAux t []
  | c :: t, cur =>
    if c.isAlpha then splitDisplayAux t (cur ++ [c])
    else String.mk cur :: String.singleton c :: splitDisplayAux t []

/-- `re.split(self.split_pattern, normalized)` where `split_pattern` is
`[<].+[>][\s]| / | \. \. \.|\.\~\.\~\.|[^\w<diacriticals>]`, with the
alternatives tried in that order at each position; delimiters are dropped
(the pattern has no groups). -/
def splitNormF : Nat → List Char → List Char → List String
  | 0, _, cur => [String.mk cur]
  | _ + 1, [], cur => [String.mk cur]
  | fuel + 1, c :: t, cur =>
    if c = '<' then
      match findAngleEnd t 0 none with
      | some j => String.mk cur :: splitNormF fuel (t.drop (j + 2)) []
      | none =>
        -- '<' is not a word character, so the final alternative matches it.
        String.mk cur :: splitNormF fuel t []
    else if (c :: t).take 3 = [' ', '/', ' '] then
      String.mk cur :: splitNormF fuel (t.drop 2) []
    else if (c :: t).take 6 = [' ', '.', ' ', '.', ' ', '.'] then
      String.mk cur :: splitNormF fuel (t.drop 5) []
    else if (c :: t).take 5 = ['.', '~', '.', '~', '.'] then
      String.mk cur :: splitNormF fuel (t.drop 4) []
    else if isSplitWordChar c then
      splitNormF fuel t (cur ++ [c])
    else
      String.mk cur :: splitNormF fuel t []

/-- `re.split(self.split_pattern, normalized)` on a character list.  Each
step of `splitNormF` consumes at least one character, so the input length is
enough fuel. -/
def splitNorm (cs : List Char) : List String :=
  splitNormF cs.length cs []

/-- The argument of `BaseTokenizer.normalize`: `str or list of str`. -/
inductive RawInput where
  | str (s : String)
  | list (l : List String)

/-- `BaseTokenizer.normalize`: join a list input with single spaces, then
apply NFKD normalization and lowercasing.  The two Unicode library calls are
explicit parameters. -/
def normalize (nfkd lower : String → String) : RawInput → String
  | .list l => lower (nfkd (String.intercalate " " l))
  | .str s => lower (nfkd s)

/-- `BaseTokenizer.sound_trigrams`'s `while` loop: slices `word[b:e]` while
`e <= len(word)`, incrementing both cursors.  (In the source the method is
missing a `self` parameter, so it acts on its sole argument, the word.)
`fuel` bounds the number of iterations, which is at most the word length. -/
def soundTrigramsAux : Nat → List Char → Nat → Nat → List String
  | 0, _, _, _ => []
  | fuel + 1, word, b, e =>
    if e ≤ word.length then
      String.mk ((word.drop b).take (e - b)) :: soundTrigramsAux fuel word (b + 1) (e + 1)
    else []

/-- `BaseTokenizer.sound_trigrams(word)`: collect `word[b:b+3]` for
`b = 0, 1, ...` while the slice fits. -/
def sound_trigrams (word : String) : List String :=
  soundTrigramsAux (word.toList.length + 1) word.toList 0 3

/-! ### Data model (`tesserae.db` entities as used by the tokenizer) -/

/-- The feature bundle returned by `featurize` for one normalized token
(the `**f` keyword arguments of the `FeatureSet` constructor). -/
abbrev Feature := List (String × String)

/-- `tesserae.Text` as used by `tokenize`: only its `language` attribute is
read. -/
structure Text where
  language : Option String
  deriving DecidableEq, Repr

/-- `tesserae.db.FeatureSet` as constructed by `tokenize`:
`FeatureSet(form=n, language=language, **f)`.  `oid` models Python object
identity (fresh per construction). -/
structure FeatureSet where
  form : String
  language : Option String
  bundle : Feature
  oid : Nat
  deriving DecidableEq, Repr

/-- `tesserae.db.Frequency` as constructed by `tokenize`:
`Frequency(text=text, feature_set=feature_set, frequency=frequencies[n])`.
`oid` models Python object identity. -/
structure Frequency where
  text : Option Text
  feature_set : FeatureSet
  frequency : Nat
  oid : Nat
  deriving DecidableEq, Repr

/-- `tesserae.db.Token` as constructed by `tokenize`:
`Token(text=text, index=idx, display=d, feature_set=feature_set,
frequency=frequency)`. -/
structure Token where
  text : Option Text
  index : Nat
  display : String
  feature_set : Option FeatureSet
  frequency : Option Frequency
  deriving DecidableEq, Repr

/-! ### Python dict / Counter semantics

Python dicts preserve insertion order; assigning to an existing key keeps its
position.  They are modelled as association lists with unique keys,
first-match lookup, and in-place-or-append insertion. -/

/-- `d[k]` / `d.get(k)`: first (and only, keys being unique) binding of `k`. -/
def alistLookup {α : Type} : List (String × α) → String → Option α
  | [], _ => none
  | (k₀, v₀) :: t, k => if k₀ = k then some v₀ else alistLookup t k

/-- `d[k] = v`: overwrite in place if present, else append. -/
def alistInsert {α : Type} : List (String × α) → String → α → List (String × α)
  | [], k, v => [(k, v)]
  | (k₀, v₀) :: t, k, v =>
    if k₀ = k then (k₀, v) :: t else (k₀, v₀) :: alistInsert t k v

/-- A `collections.Counter` over normalized forms. -/
abbrev Counter := List (String × Nat)

/-- `c[k]` on a Counter: 0 for a missing key. -/
def counterGet (c : Counter) (k : String) : Nat :=
  (alistLookup c k).getD 0

/-- `k in c`. -/
def counterMem (c : Counter) (k : String) : Bool :=
  (alistLookup c k).isSome

/-- `del c[k]` (on a key known to be present; on a list it is plain key
removal). -/
def counterDel (c : Counter) (k : String) : Counter :=
  c.filter (fun p => !(p.1 == k))

/-- `c[n] += 1` as done by the `Counter` constructor for each element. -/
def counterIncr (c : Counter) (n : String) : Counter :=
  alistInsert c n (counterGet c n + 1)

/-- `collections.Counter(ns)`. -/
def counterOf (ns : List String) : Counter :=
  ns.foldl counterIncr []

/-- `c.update(d)` for Counters: add `d`'s counts into `c`, key by key in
`d`'s order. -/
def counterUpdate (c d : Counter) : Counter :=
  d.foldl (fun acc kv => alistInsert acc kv.1 (counterGet acc kv.1 + kv.2)) c

/-! ### The tokenizer -/

/-- Errors `tokenize` can raise.  `alignmentBoundsError` is modelled from the
spec (§7), which demands a deliberate bounds check; the source never raises
it — the constructor exists so that statements about it can be written. -/
inductive TokError where
  | attributeError
  | indexError
  | alignmentBoundsError
  deriving DecidableEq, Repr

deriving instance DecidableEq for Except

/-- Session state of a `BaseTokenizer` instance: the three fields reset by
`clear()`. -/
structure TokenizerState where
  tokens : List Token
  frequencies : Counter
  feature_sets : List (String × FeatureSet)
  deriving DecidableEq, Repr

/-- `BaseTokenizer.clear()`. -/
def clear : TokenizerState :=
  { tokens := [], frequencies := [], feature_sets := [] }

/-- The tokenizer's collaborators: the two Unicode library calls used by
`normalize`, the language-specific `featurize` override, and
`self.connection.find('feature_sets', language=...)`. -/
structure TokenizerEnv where
  nfkd : String → String
  lower : String → String
  featurize : List String → List Feature
  find : Option String → List FeatureSet

/-- Lines 113–115 of the source: `normalize`, `re.split(self.split_pattern,
...)`, and the `[n for n in normalized if n]` filter. -/
def normalizedStream (env : TokenizerEnv) (raw : String) : List String :=
  (splitNorm (normalize env.nfkd env.lower (.str raw)).toList).filter
    (fun n => n ≠ "")

/-- Lines 116–118 of the source: strip `<...>·` spans, turn newlines into
`" / "`, split keeping delimiters, and filter with `if t`. -/
def displayStream (raw : String) : List String :=
  (splitDisplayAux (subNewline (subAngle raw.toList)) []).filter
    (fun t => t ≠ "")

/-- The per-call data the token loop reads but never writes. -/
structure LoopCtx where
  normalized : List String
  featurized : List Feature
  freqs : Counter
  text : Option Text
  language : Option String

/-- The `if n in feature_sets: ... else: ...` block: resolve the FeatureSet
for form `n` from the per-call cache, or construct one, register it in the
cache, and append it to `new_feature_sets`.  Returns
`(feature_set, cache, new_feature_sets, next oid)`. -/
def resolveFeatureSet (fsCache : List (String × FeatureSet))
    (newFS : List FeatureSet) (nid : Nat) (n : String)
    (language : Option String) (f : Feature) :
    FeatureSet × List (String × FeatureSet) × List FeatureSet × Nat :=
  match alistLookup fsCache n with
  | some fs => (fs, fsCache, newFS, nid)
  | none =>
    ({ form := n, language := language, bundle := f, oid := nid },
     alistInsert fsCache n { form := n, language := language, bundle := f, oid := nid },
     newFS ++ [{ form := n, language := language, bundle := f, oid := nid }],
     nid + 1)

/-- The `if n in frequency_list: ... else: ...` block: resolve the Frequency
for form `n` from `frequency_list`, or construct one with this call's tally
count and register it.  Returns `(frequency, frequency_list, next oid)`. -/
def resolveFrequency (freqList : List (String × Frequency)) (nid : Nat)
    (n : String) (text : Option Text) (feature_set : FeatureSet)
    (count : Nat) : Frequency × List (String × Frequency) × Nat :=
  match alistLookup freqList n with
  | some fr => (fr, freqList, nid)
  | none =>
    ({ text := text, feature_set := feature_set, frequency := count, oid := nid },
     alistInsert freqList n
       { text := text, feature_set := feature_set, frequency := count, oid := nid },
     nid + 1)

/-- The two resolution blocks of one word-bearing iteration, combined:
resolve the FeatureSet (threading cache, `new_feature_sets` and the oid
counter), then the Frequency.  Returns
`(feature_set, frequency, cache, frequency_list, new_feature_sets, oid)`. -/
def resolveBoth (ctx : LoopCtx) (fsCache : List (String × FeatureSet))
    (freqList : List (String × Frequency)) (newFS : List FeatureSet)
    (nid : Nat) (n : String) (f : Feature) :
    FeatureSet × Frequency × List (String × FeatureSet) ×
      List (String × Frequency) × List FeatureSet × Nat :=
  ((resolveFeatureSet fsCache newFS nid n ctx.language f).1,
   (resolveFrequency freqList (resolveFeatureSet fsCache newFS nid n ctx.language f).2.2.2
     n ctx.text (resolveFeatureSet fsCache newFS nid n ctx.language f).1
     (counterGet ctx.freqs n)).1,
   (resolveFeatureSet fsCache newFS nid n ctx.language f).2.1,
   (resolveFrequency freqList (resolveFeatureSet fsCache newFS nid n ctx.language f).2.2.2
     n ctx.text (resolveFeatureSet fsCache newFS nid n ctx.language f).1
     (counterGet ctx.freqs n)).2.1,
   (resolveFeatureSet fsCache newFS nid n ctx.language f).2.2.1,
   (resolveFrequency freqList (resolveFeatureSet fsCache newFS nid n ctx.language f).2.2.2
     n ctx.text (resolveFeatureSet fsCache newFS nid n ctx.language f).1
     (counterGet ctx.freqs n)).2.2)

/-- The `for i, d in enumerate(display)` loop of `tokenize`.  `i` carries
`i + base` (the assigned index), `m` is `norm_i`.  Word-bearing display
tokens read `normalized[norm_i]` and `featurized[norm_i]` — an out-of-range
access is Python's `IndexError`.  Returns the emitted tokens together with
the final per-call caches, the new-FeatureSet list and the oid counter. -/
def tokenLoop (ctx : LoopCtx) :
    List String → Nat → List (String × FeatureSet) →
    List (String × Frequency) → List FeatureSet → Nat → Nat →
    Except TokError
      (List Token × List (String × FeatureSet) × List (String × Frequency) ×
        List FeatureSet × Nat)
  | [], _, fsCache, freqList, newFS, _, nid =>
    .ok ([], fsCache, freqList, newFS, nid)
  | d :: rest, i, fsCache, freqList, newFS, m, nid =>
    if wordBearing d then
      match ctx.normalized.get? m, ctx.featurized.get? m with
      | some n, some f =>
        match tokenLoop ctx rest (i + 1)
            (resolveBoth ctx fsCache freqList newFS nid n f).2.2.1
            (resolveBoth ctx fsCache freqList newFS nid n f).2.2.2.1
            (resolveBoth ctx fsCache freqList newFS nid n f).2.2.2.2.1
            (m + 1)
            (resolveBoth ctx fsCache freqList newFS nid n f).2.2.2.2.2 with
        | .error e => .error e
        | .ok (ts, tl) =>
          .ok ({ text := ctx.text, index := i, display := d,
                 feature_set := some (resolveBoth ctx fsCache freqList newFS nid n f).1,
                 frequency := some (resolveBoth ctx fsCache freqList newFS nid n f).2.1 } :: ts,
               tl)
      | _, _ => .error .indexError
    else
      match tokenLoop ctx rest (i + 1) fsCache freqList newFS m nid with
      | .error e => .error e
      | .ok (ts, tl) =>
        .ok ({ text := ctx.text, index := i, display := d,
               feature_set := none, frequency := none } :: ts, tl)

/-- The per-call loop context built from lines 113–141 of the source. -/
def mkCtx (env : TokenizerEnv) (raw : String) (t : Text) : LoopCtx :=
  { normalized := normalizedStream env raw
    featurized := env.featurize (normalizedStream env raw)
    freqs := counterOf (normalizedStream env raw)
    text := some t
    language := t.language }

/-- `feature_sets = {fs.form: fs for fs in feature_sets}`: the per-call cache
seeded from the persisted lookup. -/
def seedCache (l : List FeatureSet) : List (String × FeatureSet) :=
  l.foldl (fun d fs => alistInsert d fs.form fs) []

/-- The `if record:` block (lines 175–181): guarded `del
self.frequencies['']`, `self.tokens.extend(...)`,
`self.frequencies.update(frequencies)`, `self.feature_sets.update(...)`. -/
def recordState (s : TokenizerState) (tokens : List Token) (callFreqs : Counter)
    (fsCacheF : List (String × FeatureSet)) : TokenizerState :=
  { tokens := s.tokens ++ tokens
    frequencies :=
      counterUpdate
        (if counterMem s.frequencies "" then counterDel s.frequencies ""
         else s.frequencies)
        callFreqs
    feature_sets := fsCacheF.foldl (fun acc kv => alistInsert acc kv.1 kv.2)
      s.feature_sets }

/-- The result type of `tokenize`: on success, the returned triple
`(tokens, list(frequency_list.values()), new_feature_sets)`, the post-call
session state and the oid allocation counter. -/
abbrev Result :=
  Except TokError
    ((List Token × List Frequency × List FeatureSet) × TokenizerState × Nat)

/-- `BaseTokenizer.tokenize(raw, record, text)`.

The preprocessing of lines 113–119 is `normalizedStream`/`displayStream`/
`mkCtx` (all total, so hoisting them into those definitions preserves
behavior).  At line 126 the source evaluates `text.language` with no guard to
build the persisted lookup, so `text=None` raises `AttributeError` there (the
`try/except AttributeError` at lines 131–140 comes only after this call, and
its first block guards a plain assignment `text_id = text`, which cannot
raise; `text_id` is never used afterwards).  The dead rebinding
`frequencies = self.frequencies` at the end of the `record` block does not
affect the returned tuple and has no translated counterpart. -/
def tokenize (env : TokenizerEnv) (s : TokenizerState) (raw : String)
    (record : Bool) (text : Option Text) (nid : Nat) : Result :=
  match text with
  | none => .error .attributeError
  | some t =>
    match tokenLoop (mkCtx env raw t) (displayStream raw) s.tokens.length
        (seedCache (env.find t.language)) [] [] 0 nid with
    | .error e => .error e
    | .ok (tokens, fsCacheF, freqListF, newFS, nid2) =>
      let out := (tokens, freqListF.map Prod.snd, newFS)
      if record then
        .ok (out, recordState s tokens (counterOf (normalizedStream env raw)) fsCacheF, nid2)
      else
        .ok (out, s, nid2)

/-! ### Projections of a `tokenize` result, and concrete fixtures -/

/-- The emitted token list of a successful result. -/
def tokensOfR : Result → List Token
  | .ok r => r.1.1
  | .error _ => []

/-- The returned `list(frequency_list.values())` of a successful result. -/
def freqsOfR : Result → List Frequency
  | .ok r => r.1.2.1
  | .error _ => []

/-- The returned `new_feature_sets` of a successful result. -/
def newFSOfR : Result → List FeatureSet
  | .ok r => r.1.2.2
  | .error _ => []

/-- The post-call session state of a successful result. -/
def stateOfR : Result → TokenizerState
  | .ok r => r.2.1
  | .error _ => clear

/-- The post-call oid counter of a successful result. -/
def nidOfR : Result → Nat
  | .ok r => r.2.2
  | .error _ => 0

/-- A concrete environment for witnesses and counterexamples: on the pure
ASCII lowercase inputs used below, NFKD and `str.lower` are the identity; the
featurizer is length-preserving (one empty bundle per token, like a language
with no features); the persisted lookup is empty. -/
def env0 : TokenizerEnv :=
  { nfkd := id
    lower := id
    featurize := fun ns => ns.map (fun _ => [])
    find := fun _ => [] }

/-- A concrete text metadata object. -/
def text0 : Text := { language := some "latin" }

/-! ### Supporting lemmas -/

/-- The `sound_trigrams` while-loop, started at slice `[b, b+3)` with enough
fuel, yields the 3-slices at positions `b, b+1, ...` while they fit. -/
lemma soundTrigramsAux_spec :
    ∀ fuel (cs : List Char) b, cs.length - 2 - b < fuel →
      soundTrigramsAux fuel cs b (b + 3) =
        (List.range' b (cs.length - 2 - b)).map
          (fun j => String.mk ((cs.drop j).take 3)) := by
  intro fuel
  induction fuel with
  | zero => intro cs b h; exact absurd h (Nat.not_lt_zero _)
  | succ fuel ih =>
    intro cs b h
    rw [soundTrigramsAux]
    by_cases hc : b + 3 ≤ cs.length
    · rw [if_pos hc]
      have h4 : b + 3 + 1 = (b + 1) + 3 := by omega
      have hrec : cs.length - 2 - (b + 1) < fuel := by omega
      rw [h4, ih cs (b + 1) hrec]
      have hn : cs.length - 2 - b = (cs.length - 2 - (b + 1)) + 1 := by omega
      rw [hn, List.range'_succ]
      simp only [List.map_cons]
      have harg : b + 3 - b = 3 := by omega
      rw [harg]
    · rw [if_neg hc]
      have hn : cs.length - 2 - b = 0 := by omega
      rw [hn]
      simp

/-- Looking a key up after a dict assignment: the assigned key maps to the
new value, every other key is untouched. -/
lemma alistLookup_insert {α : Type} (l : List (String × α)) (k k' : String) (v : α) :
    alistLookup (alistInsert l k v) k' =
      if k' = k then some v else alistLookup l k' := by
  induction l with
  | nil =>
    by_cases h : k' = k
    · subst h; simp [alistInsert, alistLookup]
    · simp [alistInsert, alistLookup, h, Ne.symm h]
  | cons p t ih =>
    obtain ⟨k0, v0⟩ := p
    by_cases h0 : k0 = k
    · subst h0
      by_cases h : k' = k0
      · subst h; simp [alistInsert, alistLookup]
      · simp [alistInsert, alistLookup, h, Ne.symm h]
    · by_cases h1 : k0 = k'
      · subst h1
        have hne : ¬(k0 = k) := h0
        simp [alistInsert, alistLookup, h0, fun hh : k0 = k => h0 hh]
      · simp [alistInsert, alistLookup, h0, h1, ih]

/-- A Counter merge never decreases any count. -/
lemma counterGet_update_le (d c : Counter) (k : String) :
    counterGet c k ≤ counterGet (counterUpdate c d) k := by
  induction d generalizing c with
  | nil => exact le_refl _
  | cons p d ih =>
    obtain ⟨k0, v0⟩ := p
    show counterGet c k ≤
      counterGet (counterUpdate (alistInsert c k0 (counterGet c k0 + v0)) d) k
    refine le_trans ?_ (ih (alistInsert c k0 (counterGet c k0 + v0)))
    unfold counterGet
    rw [alistLookup_insert]
    by_cases h : k = k0
    · subst h; simp [counterGet]
    · rw [if_neg h]

/-- Deleting an absent key is the identity. -/
lemma counterDel_not_mem (c : Counter) (k : String)
    (h : counterMem c k = false) : counterDel c k = c := by
  induction c with
  | nil => rfl
  | cons p t ih =>
    obtain ⟨k0, v0⟩ := p
    unfold counterMem alistLookup at h
    by_cases h0 : k0 = k
    · rw [if_pos h0] at h; simp at h
    · rw [if_neg h0] at h
      unfold counterDel at ih ⊢
      simp only [List.filter_cons]
      rw [if_pos (by simp [h0]), ih h]

/-- The guarded `del self.frequencies['']` equals unconditional key removal. -/
lemma recordDel_eq (c : Counter) (k : String) :
    (if counterMem c k then counterDel c k else c) = counterDel c k := by
  by_cases h : counterMem c k
  · rw [if_pos h]
  · rw [if_neg (by simp [h]), counterDel_not_mem c k (by simp_all)]

/-- Deleting one key leaves every other key's binding unchanged. -/
lemma alistLookup_del (c : Counter) (k k' : String) (h : k' ≠ k) :
    alistLookup (counterDel c k) k' = alistLookup c k' := by
  induction c with
  | nil => rfl
  | cons p t ih =>
    obtain ⟨k0, v0⟩ := p
    unfold counterDel at ih ⊢
    simp only [List.filter_cons]
    by_cases h0 : k0 = k
    · have hhead : alistLookup ((k0, v0) :: t) k' = alistLookup t k' := by
        show (if k0 = k' then some v0 else alistLookup t k') = alistLookup t k'
        rw [if_neg (fun (hh : k0 = k') => h (hh ▸ h0))]
      rw [if_neg (by simp [h0]), ih, hhead]
    · rw [if_pos (by simp [h0])]
      unfold alistLookup
      by_cases h1 : k0 = k'
      · rw [if_pos h1, if_pos h1]
      · rw [if_neg h1, if_neg h1]
        exact ih

/-- Deleting one key leaves every other key's count unchanged. -/
lemma counterGet_del_ne (c : Counter) (k k' : String) (h : k' ≠ k) :
    counterGet (counterDel c k) k' = counterGet c k' := by
  unfold counterGet
  rw [alistLookup_del c k k' h]

/-- Inverting a successful `tokenize` call into its loop result and the
record branch. -/
lemma tokenize_ok_elim (env : TokenizerEnv) (s : TokenizerState) (raw : String)
    (record : Bool) (t : Text) (nid : Nat)
    (out : List Token × List Frequency × List FeatureSet)
    (s2 : TokenizerState) (nid2 : Nat)
    (h : tokenize env s raw record (some t) nid = .ok (out, s2, nid2)) :
    ∃ ts fsF fqF nfs,
      tokenLoop (mkCtx env raw t) (displayStream raw) s.tokens.length
        (seedCache (env.find t.language)) [] [] 0 nid =
        .ok (ts, fsF, fqF, nfs, nid2) ∧
      out = (ts, fqF.map Prod.snd, nfs) ∧
      s2 = (if record then
              recordState s ts (counterOf (normalizedStream env raw)) fsF
            else s) := by
  rw [tokenize] at h
  cases hl : tokenLoop (mkCtx env raw t) (displayStream raw) s.tokens.length
      (seedCache (env.find t.language)) [] [] 0 nid with
  | error e => rw [hl] at h; simp at h
  | ok r =>
    obtain ⟨ts, fsF, fqF, nfs, nid3⟩ := r
    rw [hl] at h
    cases record with
    | true =>
      simp only [if_true, Except.ok.injEq, Prod.mk.injEq] at h
      obtain ⟨hout, hs2, hnid⟩ := h
      subst hs2; subst hnid
      exact ⟨ts, fsF, fqF, nfs, rfl, hout.symm, rfl⟩
    | false =>
      simp only [Bool.false_eq_true, if_false, Except.ok.injEq, Prod.mk.injEq] at h
      obtain ⟨hout, hs2, hnid⟩ := h
      subst hs2; subst hnid
      exact ⟨ts, fsF, fqF, nfs, rfl, hout.symm, rfl⟩

/-! ### Claim theorems -/

/-- Claim C10: `sound_trigrams(w)` is the list of all contiguous 3-character
substrings of `w` in left-to-right order; in particular it has length
`w.length - 2` (truncated subtraction: empty when `w.length < 3`). -/
theorem claim_C10 (w : String) :
    sound_trigrams w =
      (List.range (w.length - 2)).map (fun i => String.mk ((w.toList.drop i).take 3)) ∧
    (sound_trigrams w).length = w.length - 2 := by
  have hlen : w.length = w.toList.length := rfl
  have h := soundTrigramsAux_spec (w.toList.length + 1) w.toList 0 (by omega)
  constructor
  · show soundTrigramsAux (w.toList.length + 1) w.toList 0 3 = _
    rw [show (3 : Nat) = 0 + 3 from rfl, h, List.range_eq_range']
    rw [hlen]
    simp
  · show (soundTrigramsAux (w.toList.length + 1) w.toList 0 3).length = _
    rw [show (3 : Nat) = 0 + 3 from rfl, h]
    rw [hlen]
    simp

/-- Claim C8: `normalize` is idempotent on strings.  The two Unicode library
calls are abstract parameters; the proof is conditional on their standard
properties: NFKD is idempotent (UAX #15), lowercasing is idempotent (full
lowercase mappings produce lowercase strings), and lowercasing an
NFKD-normalized string leaves it NFKD-normalized. -/
theorem claim_C8 (nfkd lower : String → String)
    (hn : ∀ s, nfkd (nfkd s) = nfkd s)
    (hl : ∀ s, lower (lower s) = lower s)
    (hpres : ∀ s, nfkd s = s → nfkd (lower s) = lower s)
    (x : String) :
    normalize nfkd lower (.str (normalize nfkd lower (.str x))) =
      normalize nfkd lower (.str x) := by
  show lower (nfkd (lower (nfkd x))) = lower (nfkd x)
  rw [hpres (nfkd x) (hn x), hl]

/-- Witness for C8 at a concrete instantiation (identity maps satisfy all
three Unicode hypotheses) and input. -/
theorem claim_C8_witness :
    normalize id id (.str (normalize id id (.str "Arma virumque cano"))) =
      normalize id id (.str "Arma virumque cano") :=
  claim_C8 id id (fun _ => rfl) (fun _ => rfl) (fun _ _ => rfl)
    "Arma virumque cano"

/-- Claim C4 (code bug): with absent text metadata, `tokenize` does not
succeed with a null language — `text.language` is evaluated unguarded at the
persisted-lookup call, so the call fails with `AttributeError` for every
input, `record` flag and session state. -/
theorem claim_C4 (env : TokenizerEnv) (s : TokenizerState) (raw : String)
    (record : Bool) (nid : Nat) :
    tokenize env s raw record none nid = .error .attributeError := rfl

/-- Claim C3: a `record=False` call leaves the session state (token list,
frequency counter, feature-set cache) exactly equal to its pre-call state. -/
theorem claim_C3 (env : TokenizerEnv) (s : TokenizerState) (raw : String)
    (text : Option Text) (nid : Nat)
    (out : List Token × List Frequency × List FeatureSet)
    (s2 : TokenizerState) (nid2 : Nat)
    (h : tokenize env s raw false text nid = .ok (out, s2, nid2)) :
    s2 = s := by
  cases text with
  | none => simp [tokenize] at h
  | some t =>
    rw [tokenize] at h
    cases hl : tokenLoop (mkCtx env raw t) (displayStream raw) s.tokens.length
        (seedCache (env.find t.language)) [] [] 0 nid with
    | error e => rw [hl] at h; simp at h
    | ok r =>
      obtain ⟨ts, fsF, fqF, nfs, nid3⟩ := r
      rw [hl] at h
      simp only [Bool.false_eq_true, if_false, Except.ok.injEq, Prod.mk.injEq] at h
      exact h.2.1.symm

/-- Witness for C3: a concrete `record=False` call returns the pre-call
session state unchanged. -/
theorem claim_C3_witness :
    stateOfR (tokenize env0 clear "arma virumque" false (some text0) 0) = clear := by
  have h : tokenize env0 clear "arma virumque" false (some text0) 0 =
      .ok ((tokensOfR (tokenize env0 clear "arma virumque" false (some text0) 0),
            freqsOfR (tokenize env0 clear "arma virumque" false (some text0) 0),
            newFSOfR (tokenize env0 clear "arma virumque" false (some text0) 0)),
           stateOfR (tokenize env0 clear "arma virumque" false (some text0) 0),
           nidOfR (tokenize env0 clear "arma virumque" false (some text0) 0)) := by
    rfl
  exact claim_C3 env0 clear "arma virumque" (some text0) 0 _ _ _ h

/-- Claim C9: the returned `(tokens, frequencies, newFeatureSets)` triple is
identical for `record=True` and `record=False`, for every input, text
metadata, collaborator environment and session pre-state; the flag only
affects session state. -/
theorem claim_C9 (env : TokenizerEnv) (s : TokenizerState) (raw : String)
    (text : Option Text) (nid : Nat) :
    (tokenize env s raw true text nid).map (fun r => r.1) =
      (tokenize env s raw false text nid).map (fun r => r.1) := by
  cases text with
  | none => rfl
  | some t =>
    rw [tokenize, tokenize]
    cases hl : tokenLoop (mkCtx env raw t) (displayStream raw) s.tokens.length
        (seedCache (env.find t.language)) [] [] 0 nid with
    | error e => rfl
    | ok r =>
      obtain ⟨ts, fsF, fqF, nfs, nid3⟩ := r
      rfl

/-- A session pre-state whose frequency counter carries an empty-string key,
as allowed by C7's quantification over every session pre-state. -/
def preEmptyKey : TokenizerState :=
  { tokens := [], frequencies := [("", 1)], feature_sets := [] }

/-- Claim C7 (amended): on a successful `record=True` call the post-call
session frequency counter equals the *pre-call counter with any empty-string
key first removed*, merged additively with the per-call normalized-token
tally (the tally itself never contains an empty-string key, empty normalized
forms having been filtered out); counts for nonempty keys are preserved or
increased.  A pre-existing empty-string key is pruned, contrary to the claim
as stated. -/
theorem claim_C7 (env : TokenizerEnv) (s : TokenizerState) (raw : String)
    (t : Text) (nid : Nat)
    (out : List Token × List Frequency × List FeatureSet)
    (s2 : TokenizerState) (nid2 : Nat)
    (h : tokenize env s raw true (some t) nid = .ok (out, s2, nid2)) :
    s2.frequencies =
      counterUpdate (counterDel s.frequencies "")
        (counterOf (normalizedStream env raw)) ∧
    ∀ k, k ≠ "" → counterGet s.frequencies k ≤ counterGet s2.frequencies k := by
  obtain ⟨ts, fsF, fqF, nfs, _, _, hs2⟩ := tokenize_ok_elim env s raw true t nid out s2 nid2 h
  rw [if_pos rfl] at hs2
  have hfreq : s2.frequencies =
      counterUpdate (counterDel s.frequencies "")
        (counterOf (normalizedStream env raw)) := by
    rw [hs2]
    show counterUpdate
        (if counterMem s.frequencies "" then counterDel s.frequencies ""
         else s.frequencies)
        (counterOf (normalizedStream env raw)) = _
    rw [recordDel_eq]
  refine ⟨hfreq, fun k hk => ?_⟩
  rw [hfreq]
  calc counterGet s.frequencies k
      = counterGet (counterDel s.frequencies "") k :=
        (counterGet_del_ne s.frequencies "" k hk).symm
    _ ≤ _ := counterGet_update_le _ _ k

/-- Witness for C7 at a concrete recording call (the merge equation, plus
preservation at the key "arma"). -/
theorem claim_C7_witness :
    (stateOfR (tokenize env0 clear "arma virumque" true (some text0) 0)).frequencies =
      counterUpdate (counterDel clear.frequencies "")
        (counterOf (normalizedStream env0 "arma virumque")) ∧
    counterGet clear.frequencies "arma" ≤
      counterGet (stateOfR (tokenize env0 clear "arma virumque" true (some text0) 0)).frequencies
        "arma" := by
  have h : tokenize env0 clear "arma virumque" true (some text0) 0 =
      .ok ((tokensOfR (tokenize env0 clear "arma virumque" true (some text0) 0),
            freqsOfR (tokenize env0 clear "arma virumque" true (some text0) 0),
            newFSOfR (tokenize env0 clear "arma virumque" true (some text0) 0)),
           stateOfR (tokenize env0 clear "arma virumque" true (some text0) 0),
           nidOfR (tokenize env0 clear "arma virumque" true (some text0) 0)) := rfl
  exact ⟨(claim_C7 env0 clear "arma virumque" text0 0 _ _ _ h).1,
         (claim_C7 env0 clear "arma virumque" text0 0 _ _ _ h).2 "arma" (by decide)⟩

/-- Counterexample to C7 as stated: a pre-call empty-string count is not
preserved — the code deletes the empty-string key from the *session* counter
(the per-call tally can never contain one), so after recording the key is
gone. -/
theorem claim_C7_counterexample :
    counterGet preEmptyKey.frequencies "" = 1 ∧
    counterMem
      (stateOfR (tokenize env0 preEmptyKey "arma" true (some text0) 0)).frequencies
      "" = false ∧
    counterGet
      (stateOfR (tokenize env0 preEmptyKey "arma" true (some text0) 0)).frequencies
      "" = 0 := by decide

/-- If the word-bearing display tokens outnumber what remains of the
normalized/featurized streams, the token loop fails with `IndexError` (the
unguarded `normalized[norm_i]` / `featurized[norm_i]` accesses). -/
lemma tokenLoop_oob (ctx : LoopCtx) :
    ∀ (ds : List String) (i : Nat) fsC fqL nFS (m nid : Nat),
      m ≤ min ctx.normalized.length ctx.featurized.length →
      min ctx.normalized.length ctx.featurized.length <
        m + ds.countP (fun d => wordBearing d) →
      tokenLoop ctx ds i fsC fqL nFS m nid = .error .indexError := by
  intro ds
  induction ds with
  | nil =>
    intro i fsC fqL nFS m nid h1 h2
    simp only [List.countP_nil] at h2
    omega
  | cons d rest ih =>
    intro i fsC fqL nFS m nid h1 h2
    rw [tokenLoop]
    cases hw : wordBearing d with
    | true =>
      rw [if_pos rfl]
      have hc : (d :: rest).countP (fun x => wordBearing x) =
          rest.countP (fun x => wordBearing x) + 1 := by
        simp [List.countP_cons, hw]
      split
      · rename_i n f hn hf
        have hm1 : m < ctx.normalized.length := by
          obtain ⟨hlt, _⟩ := List.get?_eq_some.mp hn
          exact hlt
        have hm2 : m < ctx.featurized.length := by
          obtain ⟨hlt, _⟩ := List.get?_eq_some.mp hf
          exact hlt
        rw [ih (i + 1) _ _ _ (m + 1) _ (by omega) (by rw [hc] at h2; omega)]
      · rfl
    | false =>
      rw [if_neg (by decide)]
      have hc : (d :: rest).countP (fun x => wordBearing x) =
          rest.countP (fun x => wordBearing x) := by
        simp [List.countP_cons, hw]
      rw [ih (i + 1) _ _ _ m _ h1 (by rw [hc] at h2; omega)]

/-- Claim C1 (amended): when the count of word-bearing display tokens
exceeds the length of the normalized or featurized stream, `tokenize` fails
with Python's generic `IndexError` from the unguarded list indexing — not
with a deliberate `AlignmentBoundsError` — for every session state, `record`
flag and (present) text metadata.  It does not return truncated or incorrect
results. -/
theorem claim_C1 (env : TokenizerEnv) (s : TokenizerState) (raw : String)
    (record : Bool) (t : Text) (nid : Nat)
    (hmis : min (normalizedStream env raw).length
        (env.featurize (normalizedStream env raw)).length <
      (displayStream raw).countP (fun d => wordBearing d)) :
    tokenize env s raw record (some t) nid = .error .indexError := by
  rw [tokenize]
  have h0 : (mkCtx env raw t).normalized = normalizedStream env raw := rfl
  have h1 : (mkCtx env raw t).featurized = env.featurize (normalizedStream env raw) := rfl
  rw [tokenLoop_oob (mkCtx env raw t) (displayStream raw) s.tokens.length
    (seedCache (env.find t.language)) [] [] 0 nid (Nat.zero_le _)
    (by rw [h0, h1]; omega)]

/-- Witness for C1 at the concrete input `"a5b"`: the normalized stream is
the single token `a5b` (digits are word characters for the normalized split)
while the display stream has two word-bearing tokens `a` and `b`, and the
call fails with `IndexError`. -/
theorem claim_C1_witness :
    min (normalizedStream env0 "a5b").length
        (env0.featurize (normalizedStream env0 "a5b")).length <
      (displayStream "a5b").countP (fun d => wordBearing d) ∧
    tokenize env0 clear "a5b" true (some text0) 0 = .error .indexError :=
  ⟨by decide, claim_C1 env0 clear "a5b" true text0 0 (by decide)⟩

/-- Counterexample to C1 as stated: at `"a5b"` the alignment-mismatch
condition holds (two word-bearing display tokens, one normalized token), yet
the call raises `IndexError`, not the spec's `AlignmentBoundsError` — there
is no deliberate bounds check in the code. -/
theorem claim_C1_counterexample :
    (displayStream "a5b").countP (fun d => wordBearing d) = 2 ∧
    (normalizedStream env0 "a5b").length = 1 ∧
    tokenize env0 clear "a5b" true (some text0) 0 = .error .indexError ∧
    tokenize env0 clear "a5b" true (some text0) 0 ≠ .error .alignmentBoundsError :=
  ⟨by decide, by decide, by decide, by decide⟩

/-- A FeatureSet persisted in an earlier session-lifetime cache entry. -/
def fsOld : FeatureSet := { form := "a", language := some "latin", bundle := [], oid := 99 }

/-- A session state whose feature-set cache already holds the form `"a"`. -/
def sesA : TokenizerState :=
  { tokens := [], frequencies := [], feature_sets := [("a", fsOld)] }

/-- Claim C2 (amended): FeatureSet resolution consults only the per-call
cache seeded from the persisted lookup; the session-lifetime feature-set
cache is never read, so the call's outputs — returned triple, post-call
token list, post-call frequency counter, oid counter — are identical for any
two pre-states that differ only in the session feature-set cache. -/
theorem claim_C2 (env : TokenizerEnv) (s1 s2 : TokenizerState)
    (htok : s1.tokens = s2.tokens) (hfr : s1.frequencies = s2.frequencies)
    (raw : String) (record : Bool) (text : Option Text) (nid : Nat) :
    (tokenize env s1 raw record text nid).map
        (fun r => (r.1, r.2.1.tokens, r.2.1.frequencies, r.2.2)) =
      (tokenize env s2 raw record text nid).map
        (fun r => (r.1, r.2.1.tokens, r.2.1.frequencies, r.2.2)) := by
  cases text with
  | none => rfl
  | some t =>
    rw [tokenize, tokenize, htok]
    cases hl : tokenLoop (mkCtx env raw t) (displayStream raw) s2.tokens.length
        (seedCache (env.find t.language)) [] [] 0 nid with
    | error e => rfl
    | ok r =>
      obtain ⟨ts, fsF, fqF, nfs, nid3⟩ := r
      cases record with
      | true =>
        simp only [if_true, Except.map]
        simp [recordState, htok, hfr]
      | false =>
        simp only [Bool.false_eq_true, if_false, Except.map]
        rw [htok, hfr]

/-- Witness for C2 (amended): a pre-state whose session cache already holds
the form `"a"` yields the same outputs as the empty pre-state. -/
theorem claim_C2_witness :
    (tokenize env0 sesA "a" true (some text0) 0).map
        (fun r => (r.1, r.2.1.tokens, r.2.1.frequencies, r.2.2)) =
      (tokenize env0 clear "a" true (some text0) 0).map
        (fun r => (r.1, r.2.1.tokens, r.2.1.frequencies, r.2.2)) :=
  claim_C2 env0 sesA clear rfl rfl "a" true (some text0) 0

/-- Counterexample to C2 as stated: the form `"a"` is present in the
session-lifetime cache and absent from the persisted lookup (which returns
nothing), yet the call constructs a fresh FeatureSet and reports it as newly
created — the session-lifetime cache is not checked. -/
theorem claim_C2_counterexample :
    alistLookup sesA.feature_sets "a" = some fsOld ∧
    newFSOfR (tokenize env0 sesA "a" true (some text0) 0) =
      [{ form := "a", language := some "latin", bundle := [], oid := 0 }] :=
  ⟨by decide, by decide⟩

/-- `List.range'_append` specialized to step 1. -/
lemma range'_append_one (s m n : Nat) :
    List.range' s m ++ List.range' (s + m) n = List.range' s (m + n) := by
  have h := List.range'_append s m n 1
  rw [Nat.one_mul, Nat.add_comm n m] at h
  exact h

/-- The token loop emits one Token per display element, with indices
`i, i+1, ...` in order. -/
lemma tokenLoop_map_index (ctx : LoopCtx) :
    ∀ (ds : List String) (i : Nat) fsC fqL nFS (m nid : Nat) ts tl,
      tokenLoop ctx ds i fsC fqL nFS m nid = .ok (ts, tl) →
      ts.map Token.index = List.range' i ds.length := by
  intro ds
  induction ds with
  | nil =>
    intro i fsC fqL nFS m nid ts tl h
    rw [tokenLoop] at h
    simp only [Except.ok.injEq, Prod.mk.injEq] at h
    obtain ⟨hts, _⟩ := h
    subst hts
    simp
  | cons d rest ih =>
    intro i fsC fqL nFS m nid ts tl h
    rw [tokenLoop] at h
    split at h
    · split at h
      · split at h
        · exact absurd h (by simp)
        · rename_i n f hnf ts' tl' hrec
          simp only [Except.ok.injEq, Prod.mk.injEq] at h
          obtain ⟨hts, _⟩ := h
          subst hts
          have hr := ih (i + 1) _ _ _ (m + 1) _ ts' tl' hrec
          simp only [List.map_cons, hr, List.length_cons]
          rw [List.range'_succ]
      · exact absurd h (by simp)
    · split at h
      · exact absurd h (by simp)
      · rename_i hw ts' tl' hrec
        simp only [Except.ok.injEq, Prod.mk.injEq] at h
        obtain ⟨hts, _⟩ := h
        subst hts
        have hr := ih (i + 1) _ _ _ m _ ts' tl' hrec
        simp only [List.map_cons, hr, List.length_cons]
        rw [List.range'_succ]

/-- Claim C6: each emitted Token's index equals its position in the display
stream plus the number of already-recorded session Tokens; across two
consecutive `record=True` calls the emitted indices form the contiguous
ranges `[base, base+d1)` and `[base+d1, base+d1+d2)`, whose concatenation is
the gapless, repeat-free range `[base, base+d1+d2)`, and every index of the
second call exceeds every index of the first. -/
theorem claim_C6 (env : TokenizerEnv) (s : TokenizerState) (raw1 raw2 : String)
    (ta tb : Text) (nid : Nat)
    (o1 : List Token × List Frequency × List FeatureSet) (s1 : TokenizerState) (n1 : Nat)
    (o2 : List Token × List Frequency × List FeatureSet) (s2 : TokenizerState) (n2 : Nat)
    (h1 : tokenize env s raw1 true (some ta) nid = .ok (o1, s1, n1))
    (h2 : tokenize env s1 raw2 true (some tb) n1 = .ok (o2, s2, n2))
    (a b : Token) (ha : a ∈ o1.1) (hb : b ∈ o2.1) :
    o1.1.map Token.index = List.range' s.tokens.length o1.1.length ∧
    o2.1.map Token.index =
      List.range' (s.tokens.length + o1.1.length) o2.1.length ∧
    (o1.1 ++ o2.1).map Token.index =
      List.range' s.tokens.length (o1.1.length + o2.1.length) ∧
    a.index < b.index := by
  obtain ⟨ts1, fsF1, fqF1, nfs1, hl1, hout1, hs1⟩ :=
    tokenize_ok_elim env s raw1 true ta nid o1 s1 n1 h1
  obtain ⟨ts2, fsF2, fqF2, nfs2, hl2, hout2, hs2⟩ :=
    tokenize_ok_elim env s1 raw2 true tb n1 o2 s2 n2 h2
  have ho1 : o1.1 = ts1 := by rw [hout1]
  have ho2 : o2.1 = ts2 := by rw [hout2]
  have hm1 : o1.1.map Token.index = List.range' s.tokens.length (displayStream raw1).length := by
    rw [ho1]; exact tokenLoop_map_index _ _ _ _ _ _ _ _ _ _ hl1
  have hm2 : o2.1.map Token.index = List.range' s1.tokens.length (displayStream raw2).length := by
    rw [ho2]; exact tokenLoop_map_index _ _ _ _ _ _ _ _ _ _ hl2
  have hlen1 : o1.1.length = (displayStream raw1).length := by
    have := congrArg List.length hm1
    simpa using this
  have hlen2 : o2.1.length = (displayStream raw2).length := by
    have := congrArg List.length hm2
    simpa using this
  have hbase : s1.tokens.length = s.tokens.length + o1.1.length := by
    rw [hs1, if_pos rfl]
    show (s.tokens ++ ts1).length = _
    rw [List.length_append, ho1]
  have p1 : o1.1.map Token.index = List.range' s.tokens.length o1.1.length := by
    rw [hm1, hlen1]
  have p2 : o2.1.map Token.index =
      List.range' (s.tokens.length + o1.1.length) o2.1.length := by
    rw [hm2, hlen2, hbase]
  have p3 : (o1.1 ++ o2.1).map Token.index =
      List.range' s.tokens.length (o1.1.length + o2.1.length) := by
    rw [List.map_append, p1, p2, range'_append_one]
  refine ⟨p1, p2, p3, ?_⟩
  have hamem : a.index ∈ List.range' s.tokens.length o1.1.length := by
    rw [← p1]; exact List.mem_map_of_mem Token.index ha
  have hbmem : b.index ∈
      List.range' (s.tokens.length + o1.1.length) o2.1.length := by
    rw [← p2]; exact List.mem_map_of_mem Token.index hb
  have hab := List.mem_range'_1.mp hamem
  have hbb := List.mem_range'_1.mp hbmem
  omega

/-- The FeatureSet created for `"a"` in the first C6 witness call. -/
def fsA6 : FeatureSet := { form := "a", language := some "latin", bundle := [], oid := 0 }

/-- The Frequency created for `"a"` in the first C6 witness call. -/
def frA6 : Frequency := { text := some text0, feature_set := fsA6, frequency := 1, oid := 1 }

/-- The first Token emitted by the first C6 witness call. -/
def tokA6 : Token :=
  { text := some text0, index := 0, display := "a", feature_set := some fsA6, frequency := some frA6 }

/-- The FeatureSet created for `"c"` in the second C6 witness call. -/
def fsC6 : FeatureSet := { form := "c", language := some "latin", bundle := [], oid := 4 }

/-- The Frequency created for `"c"` in the second C6 witness call. -/
def frC6 : Frequency := { text := some text0, feature_set := fsC6, frequency := 1, oid := 5 }

/-- The Token emitted by the second C6 witness call. -/
def tokC6 : Token :=
  { text := some text0, index := 3, display := "c", feature_set := some fsC6, frequency := some frC6 }

/-- The non-word Token (the space) emitted by the first C6 witness call. -/
def tokSp6 : Token :=
  { text := some text0, index := 1, display := " ", feature_set := none, frequency := none }

/-- The FeatureSet created for `"b"` in the first C6 witness call. -/
def fsB6 : FeatureSet := { form := "b", language := some "latin", bundle := [], oid := 2 }

/-- The Frequency created for `"b"` in the first C6 witness call. -/
def frB6 : Frequency := { text := some text0, feature_set := fsB6, frequency := 1, oid := 3 }

/-- The third Token emitted by the first C6 witness call. -/
def tokB6 : Token :=
  { text := some text0, index := 2, display := "b", feature_set := some fsB6, frequency := some frB6 }

/-- Witness for C6: two consecutive recording calls from the empty session,
`"a b"` then `"c"`; the display streams have sizes 3 and 1, giving index
ranges `[0,3)` and `[3,4)`, and the first word token of call one precedes
the word token of call two. -/
theorem claim_C6_witness :
    (tokensOfR (tokenize env0 clear "a b" true (some text0) 0)).map Token.index =
      List.range' clear.tokens.length
        (tokensOfR (tokenize env0 clear "a b" true (some text0) 0)).length ∧
    (tokensOfR (tokenize env0
          (stateOfR (tokenize env0 clear "a b" true (some text0) 0)) "c" true
          (some text0)
          (nidOfR (tokenize env0 clear "a b" true (some text0) 0)))).map Token.index =
      List.range' (clear.tokens.length +
          (tokensOfR (tokenize env0 clear "a b" true (some text0) 0)).length)
        (tokensOfR (tokenize env0
          (stateOfR (tokenize env0 clear "a b" true (some text0) 0)) "c" true
          (some text0)
          (nidOfR (tokenize env0 clear "a b" true (some text0) 0)))).length ∧
    ((tokensOfR (tokenize env0 clear "a b" true (some text0) 0)) ++
        (tokensOfR (tokenize env0
          (stateOfR (tokenize env0 clear "a b" true (some text0) 0)) "c" true
          (some text0)
          (nidOfR (tokenize env0 clear "a b" true (some text0) 0))))).map Token.index =
      List.range' clear.tokens.length
        ((tokensOfR (tokenize env0 clear "a b" true (some text0) 0)).length +
          (tokensOfR (tokenize env0
            (stateOfR (tokenize env0 clear "a b" true (some text0) 0)) "c" true
            (some text0)
            (nidOfR (tokenize env0 clear "a b" true (some text0) 0)))).length) ∧
    tokA6.index < tokC6.index := by
  have h1 : tokenize env0 clear "a b" true (some text0) 0 =
      .ok ((tokensOfR (tokenize env0 clear "a b" true (some text0) 0),
            freqsOfR (tokenize env0 clear "a b" true (some text0) 0),
            newFSOfR (tokenize env0 clear "a b" true (some text0) 0)),
           stateOfR (tokenize env0 clear "a b" true (some text0) 0),
           nidOfR (tokenize env0 clear "a b" true (some text0) 0)) := rfl
  have h2 : tokenize env0 (stateOfR (tokenize env0 clear "a b" true (some text0) 0))
        "c" true (some text0) (nidOfR (tokenize env0 clear "a b" true (some text0) 0)) =
      .ok ((tokensOfR (tokenize env0
              (stateOfR (tokenize env0 clear "a b" true (some text0) 0)) "c" true
              (some text0) (nidOfR (tokenize env0 clear "a b" true (some text0) 0))),
            freqsOfR (tokenize env0
              (stateOfR (tokenize env0 clear "a b" true (some text0) 0)) "c" true
              (some text0) (nidOfR (tokenize env0 clear "a b" true (some text0) 0))),
            newFSOfR (tokenize env0
              (stateOfR (tokenize env0 clear "a b" true (some text0) 0)) "c" true
              (some text0) (nidOfR (tokenize env0 clear "a b" true (some text0) 0)))),
           stateOfR (tokenize env0
              (stateOfR (tokenize env0 clear "a b" true (some text0) 0)) "c" true
              (some text0) (nidOfR (tokenize env0 clear "a b" true (some text0) 0))),
           nidOfR (tokenize env0
              (stateOfR (tokenize env0 clear "a b" true (some text0) 0)) "c" true
              (some text0) (nidOfR (tokenize env0 clear "a b" true (some text0) 0)))) := rfl
  have htoks1 : tokensOfR (tokenize env0 clear "a b" true (some text0) 0) =
      [tokA6, tokSp6, tokB6] := rfl
  have htoks2 : tokensOfR (tokenize env0
      (stateOfR (tokenize env0 clear "a b" true (some text0) 0)) "c" true
      (some text0) (nidOfR (tokenize env0 clear "a b" true (some text0) 0))) =
      [tokC6] := rfl
  have ha : tokA6 ∈ tokensOfR (tokenize env0 clear "a b" true (some text0) 0) := by
    rw [htoks1]; exact List.mem_cons_self _ _
  have hb : tokC6 ∈ tokensOfR (tokenize env0
      (stateOfR (tokenize env0 clear "a b" true (some text0) 0)) "c" true
      (some text0) (nidOfR (tokenize env0 clear "a b" true (some text0) 0))) := by
    rw [htoks2]; exact List.mem_cons_self _ _
  exact claim_C6 env0 clear "a b" "c" text0 text0 0 _ _ _ _ _ _ h1 h2 _ _ ha hb

/-! ### Sharing invariants for C5 -/

/-- Every cached FeatureSet is stored under its own form (true of the seeded
dict `{fs.form: fs}` and preserved by creation). -/
def cacheInv (fsC : List (String × FeatureSet)) : Prop :=
  ∀ k fs, alistLookup fsC k = some fs → fs.form = k

/-- Every `frequency_list` entry is keyed by its form, carries this call's
tally count for that form, and references the FeatureSet cached for it. -/
def freqInv (fsC : List (String × FeatureSet))
    (fqL : List (String × Frequency)) (freqs : Counter) : Prop :=
  ∀ k fr, alistLookup fqL k = some fr →
    fr.feature_set.form = k ∧ fr.frequency = counterGet freqs k ∧
    alistLookup fsC k = some fr.feature_set

/-- After resolution, the cache maps `n` to the resolved FeatureSet. -/
lemma resolveFS_lookup (fsC : List (String × FeatureSet)) (nFS : List FeatureSet)
    (nid : Nat) (n : String) (lang : Option String) (f : Feature) :
    alistLookup (resolveFeatureSet fsC nFS nid n lang f).2.1 n =
      some (resolveFeatureSet fsC nFS nid n lang f).1 := by
  unfold resolveFeatureSet
  split
  · rename_i fs h; exact h
  · rw [alistLookup_insert]; simp

/-- A cache hit returns the cached FeatureSet. -/
lemma resolveFS_hit (fsC : List (String × FeatureSet)) (nFS : List FeatureSet)
    (nid : Nat) (n : String) (lang : Option String) (f : Feature)
    (fs : FeatureSet) (h : alistLookup fsC n = some fs) :
    (resolveFeatureSet fsC nFS nid n lang f).1 = fs := by
  unfold resolveFeatureSet
  split
  · rename_i fs' h'
    rw [h'] at h
    exact Option.some.inj h
  · rename_i h'
    rw [h'] at h
    simp at h

/-- The resolved FeatureSet carries the requested form. -/
lemma resolveFS_form (fsC : List (String × FeatureSet)) (nFS : List FeatureSet)
    (nid : Nat) (n : String) (lang : Option String) (f : Feature)
    (hc : cacheInv fsC) :
    (resolveFeatureSet fsC nFS nid n lang f).1.form = n := by
  unfold resolveFeatureSet
  split
  · rename_i fs h; exact hc n fs h
  · rfl

/-- Resolution preserves the cache invariant. -/
lemma resolveFS_cacheInv (fsC : List (String × FeatureSet)) (nFS : List FeatureSet)
    (nid : Nat) (n : String) (lang : Option String) (f : Feature)
    (hc : cacheInv fsC) :
    cacheInv (resolveFeatureSet fsC nFS nid n lang f).2.1 := by
  unfold resolveFeatureSet
  split
  · exact hc
  · intro k fs hfs
    rw [alistLookup_insert] at hfs
    by_cases hk : k = n
    · subst hk
      rw [if_pos rfl] at hfs
      simp only [Option.some.injEq] at hfs
      rw [← hfs]
    · rw [if_neg hk] at hfs
      exact hc k fs hfs

/-- Resolution never drops an existing cache binding. -/
lemma resolveFS_mono (fsC : List (String × FeatureSet)) (nFS : List FeatureSet)
    (nid : Nat) (n : String) (lang : Option String) (f : Feature)
    (k : String) (v : FeatureSet) (h : alistLookup fsC k = some v) :
    alistLookup (resolveFeatureSet fsC nFS nid n lang f).2.1 k = some v := by
  unfold resolveFeatureSet
  split
  · exact h
  · rename_i hn
    rw [alistLookup_insert]
    by_cases hk : k = n
    · subst hk; rw [hn] at h; simp at h
    · rw [if_neg hk]; exact h

/-- After resolution, `frequency_list` maps `n` to the resolved Frequency. -/
lemma resolveFreq_lookup (fqL : List (String × Frequency)) (nid : Nat)
    (n : String) (tx : Option Text) (fs : FeatureSet) (cnt : Nat) :
    alistLookup (resolveFrequency fqL nid n tx fs cnt).2.1 n =
      some (resolveFrequency fqL nid n tx fs cnt).1 := by
  unfold resolveFrequency
  split
  · rename_i fr h; exact h
  · rw [alistLookup_insert]; simp

/-- A `frequency_list` hit returns the stored Frequency unchanged. -/
lemma resolveFreq_hit (fqL : List (String × Frequency)) (nid : Nat)
    (n : String) (tx : Option Text) (fs : FeatureSet) (cnt : Nat)
    (fr0 : Frequency) (h : alistLookup fqL n = some fr0) :
    resolveFrequency fqL nid n tx fs cnt = (fr0, fqL, nid) := by
  unfold resolveFrequency
  rw [h]

/-- A `frequency_list` miss constructs and registers a fresh Frequency. -/
lemma resolveFreq_miss (fqL : List (String × Frequency)) (nid : Nat)
    (n : String) (tx : Option Text) (fs : FeatureSet) (cnt : Nat)
    (h : alistLookup fqL n = none) :
    resolveFrequency fqL nid n tx fs cnt =
      ({ text := tx, feature_set := fs, frequency := cnt, oid := nid },
       alistInsert fqL n { text := tx, feature_set := fs, frequency := cnt, oid := nid },
       nid + 1) := by
  unfold resolveFrequency
  rw [h]

/-- Frequency resolution never drops an existing binding. -/
lemma resolveFreq_mono (fqL : List (String × Frequency)) (nid : Nat)
    (n : String) (tx : Option Text) (fs : FeatureSet) (cnt : Nat)
    (k : String) (v : Frequency) (h : alistLookup fqL k = some v) :
    alistLookup (resolveFrequency fqL nid n tx fs cnt).2.1 k = some v := by
  unfold resolveFrequency
  split
  · exact h
  · rename_i hn
    rw [alistLookup_insert]
    by_cases hk : k = n
    · subst hk; rw [hn] at h; simp at h
    · rw [if_neg hk]; exact h

/-- One word-bearing step preserves both invariants, keeps old
`frequency_list` bindings, couples the resolved Frequency to the resolved
FeatureSet, gives the resolved FeatureSet the form `n`, and registers the
resolved Frequency under `n`. -/
lemma step_inv (ctx : LoopCtx) (fsC : List (String × FeatureSet))
    (fqL : List (String × Frequency)) (nFS : List FeatureSet) (nid : Nat)
    (n : String) (f : Feature)
    (hc : cacheInv fsC) (hq : freqInv fsC fqL ctx.freqs) :
    cacheInv (resolveBoth ctx fsC fqL nFS nid n f).2.2.1 ∧
    freqInv (resolveBoth ctx fsC fqL nFS nid n f).2.2.1
      (resolveBoth ctx fsC fqL nFS nid n f).2.2.2.1 ctx.freqs ∧
    (∀ k v, alistLookup fqL k = some v →
      alistLookup (resolveBoth ctx fsC fqL nFS nid n f).2.2.2.1 k = some v) ∧
    (resolveBoth ctx fsC fqL nFS nid n f).2.1.feature_set =
      (resolveBoth ctx fsC fqL nFS nid n f).1 ∧
    (resolveBoth ctx fsC fqL nFS nid n f).1.form = n ∧
    alistLookup (resolveBoth ctx fsC fqL nFS nid n f).2.2.2.1 n =
      some (resolveBoth ctx fsC fqL nFS nid n f).2.1 := by
  refine ⟨resolveFS_cacheInv fsC nFS nid n ctx.language f hc, ?_, ?_, ?_,
    resolveFS_form fsC nFS nid n ctx.language f hc, ?_⟩
  · -- freqInv is preserved
    intro k fr hfr
    cases hn : alistLookup fqL n with
    | some fr0 =>
      rw [show (resolveBoth ctx fsC fqL nFS nid n f).2.2.2.1 =
            (resolveFrequency fqL (resolveFeatureSet fsC nFS nid n ctx.language f).2.2.2
              n ctx.text (resolveFeatureSet fsC nFS nid n ctx.language f).1
              (counterGet ctx.freqs n)).2.1 from rfl,
          resolveFreq_hit _ _ _ _ _ _ fr0 hn] at hfr
      obtain ⟨hform, hcount, hcache⟩ := hq k fr hfr
      exact ⟨hform, hcount, resolveFS_mono fsC nFS nid n ctx.language f k _ hcache⟩
    | none =>
      rw [show (resolveBoth ctx fsC fqL nFS nid n f).2.2.2.1 =
            (resolveFrequency fqL (resolveFeatureSet fsC nFS nid n ctx.language f).2.2.2
              n ctx.text (resolveFeatureSet fsC nFS nid n ctx.language f).1
              (counterGet ctx.freqs n)).2.1 from rfl,
          resolveFreq_miss _ _ _ _ _ _ hn] at hfr
      rw [alistLookup_insert] at hfr
      by_cases hk : k = n
      · rw [if_pos hk] at hfr
        simp only [Option.some.injEq] at hfr
        rw [← hfr, hk]
        refine ⟨resolveFS_form fsC nFS nid n ctx.language f hc, rfl, ?_⟩
        exact resolveFS_lookup fsC nFS nid n ctx.language f
      · rw [if_neg hk] at hfr
        obtain ⟨hform, hcount, hcache⟩ := hq k fr hfr
        exact ⟨hform, hcount, resolveFS_mono fsC nFS nid n ctx.language f k _ hcache⟩
  · -- old frequency_list bindings survive
    intro k v hv
    exact resolveFreq_mono fqL _ n ctx.text _ _ k v hv
  · -- the resolved Frequency references the resolved FeatureSet
    cases hn : alistLookup fqL n with
    | some fr0 =>
      show (resolveFrequency fqL (resolveFeatureSet fsC nFS nid n ctx.language f).2.2.2
          n ctx.text (resolveFeatureSet fsC nFS nid n ctx.language f).1
          (counterGet ctx.freqs n)).1.feature_set =
        (resolveFeatureSet fsC nFS nid n ctx.language f).1
      rw [resolveFreq_hit _ _ _ _ _ _ fr0 hn]
      obtain ⟨_, _, hcache⟩ := hq n fr0 hn
      exact (resolveFS_hit fsC nFS nid n ctx.language f _ hcache).symm
    | none =>
      show (resolveFrequency fqL (resolveFeatureSet fsC nFS nid n ctx.language f).2.2.2
          n ctx.text (resolveFeatureSet fsC nFS nid n ctx.language f).1
          (counterGet ctx.freqs n)).1.feature_set =
        (resolveFeatureSet fsC nFS nid n ctx.language f).1
      rw [resolveFreq_miss _ _ _ _ _ _ hn]
  · -- the resolved Frequency is registered under n
    exact resolveFreq_lookup fqL _ n ctx.text _ _

/-- The token-loop invariant: starting from a cache and frequency list
satisfying `cacheInv`/`freqInv`, a successful loop yields final caches that
still satisfy them, never drops a `frequency_list` binding, and every
emitted word-bearing Token references exactly the FeatureSet of its
Frequency, with that Frequency registered in the final `frequency_list`
under its form. -/
lemma tokenLoop_inv (ctx : LoopCtx) :
    ∀ (ds : List String) (i : Nat) fsC fqL nFS (m nid : Nat) ts fsF fqF nfs nid2,
      tokenLoop ctx ds i fsC fqL nFS m nid = .ok (ts, fsF, fqF, nfs, nid2) →
      cacheInv fsC → freqInv fsC fqL ctx.freqs →
      cacheInv fsF ∧ freqInv fsF fqF ctx.freqs ∧
      (∀ k v, alistLookup fqL k = some v → alistLookup fqF k = some v) ∧
      (∀ tk ∈ ts, ∀ fr, tk.frequency = some fr →
          tk.feature_set = some fr.feature_set ∧
          alistLookup fqF fr.feature_set.form = some fr) := by
  intro ds
  induction ds with
  | nil =>
    intro i fsC fqL nFS m nid ts fsF fqF nfs nid2 h hc hq
    rw [tokenLoop] at h
    simp only [Except.ok.injEq, Prod.mk.injEq] at h
    obtain ⟨hts, hfsF, hfqF, _, _⟩ := h
    subst hts; subst hfsF; subst hfqF
    exact ⟨hc, hq, fun k v hv => hv, by simp⟩
  | cons d rest ih =>
    intro i fsC fqL nFS m nid ts fsF fqF nfs nid2 h hc hq
    rw [tokenLoop] at h
    split at h
    · split at h
      · split at h
        · exact absurd h (by simp)
        · rename_i hword xs1 xs2 n f hn hf xr ts' tl' hrec
          simp only [Except.ok.injEq, Prod.mk.injEq] at h
          obtain ⟨hts, htl⟩ := h
          subst hts
          subst htl
          obtain ⟨sc, sq, smono, scouple, sform, sreg⟩ :=
            step_inv ctx fsC fqL nFS nid n f hc hq
          obtain ⟨c1, c2, c3, c4⟩ := ih (i + 1) _ _ _ (m + 1) _ ts' _ _ _ _ hrec sc sq
          refine ⟨c1, c2, fun k v hv => c3 k v (smono k v hv), ?_⟩
          intro tk htk fr hfr
          cases htk with
          | head =>
            simp only [Option.some.injEq] at hfr
            rw [← hfr]
            have hfm : (resolveBoth ctx fsC fqL nFS nid n f).2.1.feature_set.form = n := by
              rw [scouple, sform]
            exact ⟨by rw [scouple], by rw [hfm]; exact c3 _ _ sreg⟩
          | tail _ htk' => exact c4 tk htk' fr hfr
      · exact absurd h (by simp)
    · split at h
      · exact absurd h (by simp)
      · rename_i hw ts' tl' hrec
        simp only [Except.ok.injEq, Prod.mk.injEq] at h
        obtain ⟨hts, htl⟩ := h
        subst hts
        subst htl
        obtain ⟨c1, c2, c3, c4⟩ := ih (i + 1) _ _ _ m _ ts' _ _ _ _ hrec hc hq
        refine ⟨c1, c2, c3, ?_⟩
        intro tk htk fr hfr
        cases htk with
        | head => simp at hfr
        | tail _ htk' => exact c4 tk htk' fr hfr

/-- The seeded per-call cache `{fs.form: fs}` satisfies the cache
invariant. -/
lemma seedCache_inv_general :
    ∀ (l : List FeatureSet) (d : List (String × FeatureSet)), cacheInv d →
      cacheInv (l.foldl (fun d fs => alistInsert d fs.form fs) d) := by
  intro l
  induction l with
  | nil => intro d hd; exact hd
  | cons fs l ih =>
    intro d hd
    simp only [List.foldl_cons]
    refine ih _ ?_
    intro k fs' h
    rw [alistLookup_insert] at h
    by_cases hk : k = fs.form
    · subst hk
      rw [if_pos rfl] at h
      simp only [Option.some.injEq] at h
      rw [← h]
    · rw [if_neg hk] at h
      exact hd k fs' h

/-- `seedCache` satisfies the cache invariant. -/
lemma seedCache_inv (l : List FeatureSet) : cacheInv (seedCache l) := by
  refine seedCache_inv_general l [] ?_
  intro k fs h
  simp [alistLookup] at h

/-- A Counter built from a list counts occurrences. -/
lemma counterGet_foldl_incr :
    ∀ (ns : List String) (c : Counter) (k : String),
      counterGet (ns.foldl counterIncr c) k = counterGet c k + ns.count k := by
  intro ns
  induction ns with
  | nil => intro c k; simp
  | cons n ns ih =>
    intro c k
    simp only [List.foldl_cons]
    rw [ih]
    rw [List.count_cons]
    unfold counterIncr counterGet
    rw [alistLookup_insert]
    by_cases hk : k = n
    · subst hk
      rw [if_pos rfl]
      simp
      omega
    · rw [if_neg hk]
      have : (n == k) = false := by
        simp [hk]
        exact fun hh => hk hh.symm
      rw [this]
      simp

/-- `collections.Counter(ns)[k]` is the number of occurrences of `k` in
`ns`. -/
lemma counterGet_counterOf (ns : List String) (k : String) :
    counterGet (counterOf ns) k = ns.count k := by
  show counterGet (ns.foldl counterIncr []) k = _
  rw [counterGet_foldl_incr]
  simp [counterGet, alistLookup]

/-- Claim C5 (amended): within one call, any two emitted Tokens whose
Frequencies carry the same normalized form reference the identical Frequency
object and the identical FeatureSet object (each Token's FeatureSet is
exactly its Frequency's), and that Frequency's count is the number of
occurrences of the form in the call's full normalized stream — not the
number of word-bearing display tokens carrying the form, which can differ
when the two streams misalign. -/
theorem claim_C5 (env : TokenizerEnv) (s : TokenizerState) (raw : String)
    (record : Bool) (t : Text) (nid : Nat)
    (toks : List Token) (freqs : List Frequency) (nfs : List FeatureSet)
    (s2 : TokenizerState) (nid2 : Nat)
    (h : tokenize env s raw record (some t) nid = .ok ((toks, freqs, nfs), s2, nid2))
    (t1 t2 : Token) (fr1 fr2 : Frequency)
    (ht1 : t1 ∈ toks) (ht2 : t2 ∈ toks)
    (hf1 : t1.frequency = some fr1) (hf2 : t2.frequency = some fr2)
    (hform : fr1.feature_set.form = fr2.feature_set.form) :
    fr1 = fr2 ∧ t1.feature_set = t2.feature_set ∧
    t1.feature_set = some fr1.feature_set ∧
    fr1.frequency = (normalizedStream env raw).count fr1.feature_set.form := by
  obtain ⟨ts, fsF, fqF, nfs', hl, hout, _⟩ :=
    tokenize_ok_elim env s raw record t nid (toks, freqs, nfs) s2 nid2 h
  have htoks : toks = ts := congrArg (fun p => p.1) hout
  rw [htoks] at ht1 ht2
  have hq0 : freqInv (seedCache (env.find t.language)) [] (mkCtx env raw t).freqs := by
    intro k fr hfr
    simp [alistLookup] at hfr
  obtain ⟨_, cinv, _, ctok⟩ :=
    tokenLoop_inv (mkCtx env raw t) (displayStream raw) s.tokens.length
      (seedCache (env.find t.language)) [] [] 0 nid ts fsF fqF nfs' nid2 hl
      (seedCache_inv (env.find t.language)) hq0
  obtain ⟨hfs1, hlk1⟩ := ctok t1 ht1 fr1 hf1
  obtain ⟨hfs2, hlk2⟩ := ctok t2 ht2 fr2 hf2
  rw [hform] at hlk1
  rw [hlk2] at hlk1
  have hfr12 : fr1 = fr2 := (Option.some.inj hlk1).symm
  refine ⟨hfr12, ?_, hfs1, ?_⟩
  · rw [hfs1, hfs2, hfr12]
  · obtain ⟨_, hcount, _⟩ := cinv fr1.feature_set.form fr1 (by rw [hform]; rw [hfr12]; exact hlk2)
    rw [hcount]
    show counterGet (counterOf (normalizedStream env raw)) _ = _
    rw [counterGet_counterOf]

/-- The FeatureSet created for `"b"` in the C5 witness call. -/
def fsB5 : FeatureSet := { form := "b", language := some "latin", bundle := [], oid := 0 }

/-- The Frequency created for `"b"` in the C5 witness call (count 2). -/
def frB5 : Frequency := { text := some text0, feature_set := fsB5, frequency := 2, oid := 1 }

/-- The first `"b"` Token of the C5 witness call. -/
def tokB5a : Token :=
  { text := some text0, index := 0, display := "b", feature_set := some fsB5, frequency := some frB5 }

/-- The second `"b"` Token of the C5 witness call (index 4, same objects). -/
def tokB5b : Token :=
  { text := some text0, index := 4, display := "b", feature_set := some fsB5, frequency := some frB5 }

/-- Witness for C5 at the aligned call `"b ab b"`: the two `"b"` Tokens share
the identical Frequency and FeatureSet, and the count is the number of
occurrences of `"b"` in the normalized stream (2, which here also equals the
number of word-bearing `"b"` display tokens). -/
theorem claim_C5_witness :
    frB5 = frB5 ∧ tokB5a.feature_set = tokB5b.feature_set ∧
    tokB5a.feature_set = some frB5.feature_set ∧
    frB5.frequency = (normalizedStream env0 "b ab b").count frB5.feature_set.form := by
  have h : tokenize env0 clear "b ab b" true (some text0) 0 =
      .ok ((tokensOfR (tokenize env0 clear "b ab b" true (some text0) 0),
            freqsOfR (tokenize env0 clear "b ab b" true (some text0) 0),
            newFSOfR (tokenize env0 clear "b ab b" true (some text0) 0)),
           stateOfR (tokenize env0 clear "b ab b" true (some text0) 0),
           nidOfR (tokenize env0 clear "b ab b" true (some text0) 0)) := rfl
  exact claim_C5 env0 clear "b ab b" true text0 0 _ _ _ _ _ h tokB5a tokB5b frB5 frB5
    (by decide) (by decide) (by decide) (by decide) (by decide)

/-- Counterexample to C5 as stated: at `"a 5 a"` the display stream's word
tokens (`a`, `a`) misalign with the normalized stream (`a`, `5`, `a`) — the
second word token is paired with form `"5"` — so exactly one emitted Token
carries normalized form `"a"` (k = 1), yet its Frequency count is 2 (the
occurrences of `"a"` in the full normalized stream), not k. -/
theorem claim_C5_counterexample :
    ((tokensOfR (tokenize env0 clear "a 5 a" true (some text0) 0)).filter
        (fun tk => tk.feature_set.map FeatureSet.form == some "a")).length = 1 ∧
    ((tokensOfR (tokenize env0 clear "a 5 a" true (some text0) 0)).filter
        (fun tk => tk.feature_set.map FeatureSet.form == some "a")).map
      (fun tk => tk.frequency.map Frequency.frequency) = [some 2] :=
  ⟨by decide, by decide⟩

end Tesserae
